import Mathlib

/-!
Verification development for the diff-strategy core of the repository:
the strategy selector, the Search-Replace strategy, the Optimized Unified
strategy with its gap buffer, the Smart Hybrid strategy, and the shared
LRU similarity cache.  Each definition is a shallow embedding of the
corresponding TypeScript source; JavaScript numbers appearing in
similarity computations are modelled as exact rationals, JavaScript
32-bit integer operations (used by the murmur hash) are modelled as
naturals reduced modulo 2^32, and strings are Lean strings indexed by
characters (the sources only ever index ASCII text).
-/

namespace RooDiff

/-! ## JavaScript string and list primitives -/

/-- The JavaScript whitespace characters that occur in the sources
(the strategies only ever meet spaces, tabs and line breaks). -/
def jsIsSpace (c : Char) : Bool :=
  c = ' ' || c = '\t' || c = '\n' || c = '\r'

/-- One step of `replace(/\s+/g, " ")`: collapse every maximal run of
whitespace into a single space.  The boolean records whether the
previous character was part of a whitespace run. -/
def collapseWSGo : List Char → Bool → List Char
  | [], _ => []
  | c :: rest, prev =>
    if jsIsSpace c then
      if prev then collapseWSGo rest true else ' ' :: collapseWSGo rest true
    else c :: collapseWSGo rest false

/-- Trim whitespace from both ends of a character list, as `String.trim`
does in JavaScript. -/
def jsTrimList (l : List Char) : List Char :=
  ((l.dropWhile jsIsSpace).reverse.dropWhile jsIsSpace).reverse

/-- JavaScript `String.prototype.trim`. -/
def jsTrim (s : String) : String :=
  String.mk (jsTrimList s.data)

/-- `str.replace(/\s+/g, " ").trim()` from `normalizeStr` in
`search-replace.ts`. -/
def normalizeStr (s : String) : String :=
  String.mk (jsTrimList (collapseWSGo s.data false))

/-- Leftmost index at which `pat` occurs inside a character list. -/
def findSub (pat : List Char) : List Char → Option Nat
  | [] => if pat = [] then some 0 else none
  | c :: rest =>
    if pat.isPrefixOf (c :: rest) then some 0
    else (findSub pat rest).map (· + 1)

/-- Leftmost index of `pat` in `s` (JavaScript `indexOf`). -/
def strIndexOf (s pat : String) : Option Nat :=
  findSub pat.data s.data

/-- Leftmost index `≥ start` of `pat` in `s`. -/
def strIndexOfFrom (s pat : String) (start : Nat) : Option Nat :=
  (findSub pat.data (s.data.drop start)).map (· + start)

/-- JavaScript `String.prototype.includes`. -/
def strContains (s pat : String) : Bool :=
  (strIndexOf s pat).isSome

/-- The substring of `s` covering character positions `[a, b)`. -/
def substr (s : String) (a b : Nat) : String :=
  String.mk ((s.data.take b).drop a)

/-- JavaScript `String.prototype.replace` with a plain string pattern:
replace the first occurrence only (the sources never use `$`-patterns
in the replacement). -/
def strReplaceFirst (s pat repl : String) : String :=
  match strIndexOf s pat with
  | none => s
  | some i => substr s 0 i ++ repl ++ String.mk (s.data.drop (i + pat.length))

/-- Replace every `"\r\n"` with `"\n"`, as `replace(/\r\n/g, "\n")`. -/
def replaceRNGo : List Char → List Char
  | [] => []
  | '\r' :: '\n' :: rest => '\n' :: replaceRNGo rest
  | c :: rest => c :: replaceRNGo rest

/-- `content.replace(/\r\n/g, "\n")` from the Smart Hybrid strategy. -/
def replaceRN (s : String) : String :=
  String.mk (replaceRNGo s.data)

/-- `split(/\r?\n/)`: cut at every `"\n"`, additionally consuming one
`'\r'` directly before the cut.  The accumulator holds the current
segment reversed. -/
def splitRNGo : List Char → List Char → List String
  | [], acc => [String.mk acc.reverse]
  | c :: rest, acc =>
    if c = '\n' then
      String.mk ((if acc.head? = some '\r' then acc.tail else acc).reverse) ::
        splitRNGo rest []
    else splitRNGo rest (c :: acc)

/-- JavaScript `split(/\r?\n/)`. -/
def splitRN (s : String) : List String :=
  splitRNGo s.data []

/-- `Array.prototype.join("\n")`. -/
def joinNL (l : List String) : String :=
  String.intercalate "\n" l

/-- `Array.prototype.join("")`, used by the gap buffer. -/
def jsJoin : List String → String
  | [] => ""
  | s :: rest => s ++ jsJoin rest

/-- `Array.prototype.slice(s, e)` for the in-bounds uses in the sources. -/
def jsSliceL {α : Type} (l : List α) (s e : Nat) : List α :=
  (l.take e).drop s

/-- `Array.prototype.splice(start, deleteCount, ...items)` (result array). -/
def jsSpliceIns {α : Type} (l : List α) (start delCount : Nat) (items : List α) : List α :=
  l.take start ++ items ++ l.drop (start + delCount)

/-- `Array.prototype.splice(start, deleteCount)` with no insertions. -/
def jsSpliceDel {α : Type} (l : List α) (start delCount : Nat) : List α :=
  l.take start ++ l.drop (start + delCount)

/-- JavaScript truthiness of an optional number (`undefined` and `0`
are falsy), used for the `startLine`/`endLine`/`size` guards. -/
def jsTruthyNat : Option Nat → Bool
  | none => false
  | some n => n ≠ 0

/-- `split(sep)` for a one-character separator (the sources only split
on `"\n"` and `"."`). -/
def splitOnCharGo (sep : Char) : List Char → List Char → List String
  | [], acc => [String.mk acc.reverse]
  | c :: rest, acc =>
    if c = sep then String.mk acc.reverse :: splitOnCharGo sep rest []
    else splitOnCharGo sep rest (c :: acc)

/-- JavaScript `split(sep)` with a one-character separator. -/
def splitOnChar (sep : Char) (s : String) : List String :=
  splitOnCharGo sep s.data []

/-- JavaScript `String.prototype.startsWith`. -/
def jsStartsWith (s pre : String) : Bool :=
  pre.data.isPrefixOf s.data

/-- JavaScript `String.prototype.toLowerCase` (ASCII, as in the
extension checks). -/
def jsToLower (s : String) : String :=
  String.mk (s.data.map Char.toLower)

/-- `parseInt` on a non-empty digit string. -/
def digitsToNat (ds : List Char) : Nat :=
  ds.foldl (fun n c => n * 10 + (c.toNat - 48)) 0

/-! ## MurmurHash3 (`search-replace.ts`)

JavaScript 32-bit operations are modelled on naturals below `2^32`
holding the two's-complement bit pattern: `Math.imul` is multiplication
modulo `2^32`, `<<`/`>>>` are shifts of the pattern, and `^`/`|`/`&`
are the bitwise operations.  The unmasked `Math.imul(hash, m) + n`
step is reduced modulo `2^32`, which agrees with the `ToInt32`
coercion applied at its next use. -/

def mask32 (x : Nat) : Nat := x % 4294967296

def jsImul (a b : Nat) : Nat := mask32 (a * b)

/-- `(x << r) | (x >>> (32 - r))` for `x < 2^32`. -/
def rot32 (x r : Nat) : Nat :=
  mask32 (x <<< r) ||| (x >>> (32 - r))

/-- The per-chunk mixing step of `murmurHash3`: runs the `k`/`hash`
updates of one loop iteration. -/
def murmurChunkStep (hash k0 : Nat) : Nat :=
  let k := jsImul k0 0xcc9e2d51
  let k := rot32 k 15
  let k := jsImul k 0x1b873593
  let h := hash ^^^ k
  let h := rot32 h 13
  mask32 (jsImul h 5 + 0xe6546b64)

/-- Process the 4-character chunks of the input, returning the running
hash and the at-most-3 remaining characters. -/
def murmurBody : List Char → Nat → Nat × List Char
  | c0 :: c1 :: c2 :: c3 :: rest, hash =>
    let k :=
      (c0.toNat &&& 0xff) |||
      ((c1.toNat &&& 0xff) <<< 8) |||
      ((c2.toNat &&& 0xff) <<< 16) |||
      mask32 ((c3.toNat &&& 0xff) <<< 24)
    murmurBody rest (murmurChunkStep hash k)
  | rest, hash => (hash, rest)

/-- The tail handling of `murmurHash3` for the remaining `len mod 4`
characters (the source indexes them from the end of the string, which
is exactly the leftover suffix). -/
def murmurTail (rest : List Char) (hash : Nat) : Nat :=
  match rest with
  | [] => hash
  | _ =>
    let k : Nat :=
      match rest with
      | [a] => a.toNat
      | [a, b] => mask32 (a.toNat <<< 8) ^^^ b.toNat
      | [a, b, c] => mask32 (a.toNat <<< 16) ^^^ mask32 (b.toNat <<< 8) ^^^ c.toNat
      | _ => 0
    let k := jsImul k 0xcc9e2d51
    let k := rot32 k 15
    let k := jsImul k 0x1b873593
    hash ^^^ k

/-- The finalisation mixing of `murmurHash3` (the closing `>>> 0` makes
the JavaScript result exactly this unsigned pattern). -/
def murmurFinalize (hash len : Nat) : Nat :=
  let h := mask32 (hash ^^^ len)
  let h := h ^^^ (h >>> 16)
  let h := jsImul h 0x85ebca6b
  let h := h ^^^ (h >>> 13)
  let h := jsImul h 0xc2b2ae35
  h ^^^ (h >>> 16)

/-- `murmurHash3` from `search-replace.ts` (seed `0x1234abcd`). -/
def murmurHash3 (s : String) : Nat :=
  let p := murmurBody s.data 0x1234abcd
  murmurFinalize (murmurTail p.2 p.1) s.data.length

/-! ## Levenshtein distance

Model of the external `fastest-levenshtein` `distance` function as the
textbook edit distance, computed by dynamic programming so concrete
instances evaluate quickly. -/

/-- Produce the rest of the next DP row: `diag`/`left` are the values
diagonally above and to the left of the cell being produced, `row`
is the remainder of the previous row. -/
def levStepGo (c : Char) : List Char → List Nat → Nat → Nat → List Nat
  | [], _, _, _ => []
  | _ :: _, [], _, _ => []
  | ai :: as, ri :: rest, diag, left =>
    let v := min (min (ri + 1) (left + 1)) (diag + if ai = c then 0 else 1)
    v :: levStepGo c as rest ri v

/-- Advance the DP one character of the second string. -/
def levStep (c : Char) (a : List Char) (row : List Nat) : List Nat :=
  match row with
  | [] => []
  | r0 :: rest => (r0 + 1) :: levStepGo c a rest r0 (r0 + 1)

/-- Levenshtein edit distance between two character lists. -/
def levenshtein (a b : List Char) : Nat :=
  (b.foldl (fun row c => levStep c a row) (List.range (a.length + 1))).getLastD 0

/-! ## Similarity (`getSimilarity` in `search-replace.ts`)

The module-level `similarityCache` only memoises this function: a hit
returns the previously computed value of the same pure computation, so
the cache is semantically transparent and the function is modelled
directly.  The `normalizedStrings` WeakMap is keyed by a freshly
allocated object and therefore never hits, so normalisation always
recomputes.  The JavaScript floating-point score `1 - dist/maxLength`
is modelled as the equal exact rational `(maxLength - dist)/maxLength`. -/

def getSimilarity (original search : String) : ℚ :=
  if search = "" then 1
  else
    let normalizedOriginal := normalizeStr original
    let normalizedSearch := normalizeStr search
    if normalizedOriginal = normalizedSearch then 1
    else if murmurHash3 normalizedOriginal = murmurHash3 normalizedSearch then 1
    else
      let dist := levenshtein normalizedOriginal.data normalizedSearch.data
      let maxLength := max normalizedOriginal.length normalizedSearch.length
      mkRat ((maxLength : Int) - (dist : Int)) maxLength

/-! ## The LRU cache of `search-replace.ts`

`class LRUCache` is modelled on an association list in JavaScript
`Map` insertion order: `Map.set` of a present key updates it in place,
of an absent key appends it at the end, and `keys().next().value` is
the head. -/

/-- `Map.prototype.get`. -/
def jsMapGet {K V : Type} [DecidableEq K] : List (K × V) → K → Option V
  | [], _ => none
  | (k0, v0) :: rest, k => if k0 = k then some v0 else jsMapGet rest k

/-- `Map.prototype.set`: update in place if present, else append. -/
def jsMapSet {K V : Type} [DecidableEq K] : List (K × V) → K → V → List (K × V)
  | [], k, v => [(k, v)]
  | (k0, v0) :: rest, k, v =>
    if k0 = k then (k0, v) :: rest else (k0, v0) :: jsMapSet rest k v

/-- `Map.prototype.delete` (keys are unique, so deleting the first
occurrence is exact). -/
def jsMapDelete {K V : Type} [DecidableEq K] : List (K × V) → K → List (K × V)
  | [], _ => []
  | (k0, v0) :: rest, k => if k0 = k then rest else (k0, v0) :: jsMapDelete rest k

/-- The `LRUCache` of `search-replace.ts`. -/
structure LRUCache (K V : Type) where
  data : List (K × V)
  maxSize : Nat

/-- `new LRUCache(maxSize)`. -/
def LRUCache.empty (K V : Type) (maxSize : Nat) : LRUCache K V :=
  ⟨[], maxSize⟩

/-- `LRUCache.get`: on a hit the entry is deleted and re-inserted,
refreshing its position at the end of the map. -/
def LRUCache.get {K V : Type} [DecidableEq K] (c : LRUCache K V) (k : K) :
    Option V × LRUCache K V :=
  match jsMapGet c.data k with
  | none => (none, c)
  | some v => (some v, ⟨jsMapSet (jsMapDelete c.data k) k v, c.maxSize⟩)

/-- `LRUCache.set`: at capacity, first delete the first key of the map
(if any), then set. -/
def LRUCache.set {K V : Type} [DecidableEq K] (c : LRUCache K V) (k : K) (v : V) :
    LRUCache K V :=
  let data :=
    if c.data.length ≥ c.maxSize then
      match c.data.head? with
      | some (k0, _) => jsMapDelete c.data k0
      | none => c.data
    else c.data
  ⟨jsMapSet data k v, c.maxSize⟩

/-- `MAX_CACHE_SIZE` from `search-replace.ts`. -/
def MAX_CACHE_SIZE : Nat := 1000

/-- An abstract client operation on the cache (for stating the
capacity invariant over arbitrary usage). -/
inductive LRUOp (K V : Type)
  | get (k : K)
  | set (k : K) (v : V)

/-- Run a sequence of operations against the cache. -/
def LRUCache.runOps {K V : Type} [DecidableEq K] :
    LRUCache K V → List (LRUOp K V) → LRUCache K V
  | c, [] => c
  | c, .get k :: rest => LRUCache.runOps (c.get k).2 rest
  | c, .set k v :: rest => LRUCache.runOps (c.set k v) rest

/-! ## Search-Replace strategy (`search-replace.ts`) -/

/-- `BUFFER_LINES` from `search-replace.ts`. -/
def BUFFER_LINES : Nat := 20

/-- The fields of `SearchReplaceDiffStrategy` set by its constructor. -/
structure SRStrategy where
  fuzzyThreshold : ℚ
  bufferLines : Nat
deriving DecidableEq

/-- `new SearchReplaceDiffStrategy(fuzzyThreshold?, bufferLines?)`:
`fuzzyThreshold ?? 1.0` and `bufferLines ?? BUFFER_LINES`. -/
def SRStrategy.ofArgs (fuzzyThreshold : Option ℚ) (bufferLines : Option Nat) : SRStrategy :=
  ⟨fuzzyThreshold.getD 1, bufferLines.getD BUFFER_LINES⟩

/-- The structured outcomes of `SearchReplaceDiffStrategy.applyDiff`.
Failure constructors carry the data from which the source builds its
`error` message: `invalidFormat` records which markers the `includes`
checks found missing, `noMatch` records the achieved best score, the
required threshold, the best match index and the best matching window
(rendered in the message as floored percentages plus the window with
line numbers).  `success` carries the would-be `accuracyScore`
(`bestMatchScore`), reported in metrics when collection is on. -/
inductive SRResult
  | success (content : String) (appliedLines : Nat) (score : ℚ)
  | invalidFormat (missingSearch missingDivider missingReplace : Bool)
  | emptySearchNoStart
  | emptySearchRange (s e : Nat)
  | invalidRange (s e : Nat)
  | noMatch (bestScore threshold : ℚ) (matchIndex : Option Nat) (bestContent : String)
deriving DecidableEq

/-- The state threaded through the candidate scan loop:
`matchIndex`/`best`/`bestContent` model `matchIndex === -1` as `none`. -/
structure ScanState where
  matchIndex : Option Nat
  best : ℚ
  bestContent : String
deriving DecidableEq

/-- The `<<<<<<< SEARCH / ======= / >>>>>>> REPLACE` extraction regex of
`applyDiff`, for `"\n"` line endings (the regex also accepts `"\r\n"`;
every claim below concerns `"\n"` inputs): the leftmost match takes the
first start marker, the lazily-first divider after it and the lazily
-first end marker after that. -/
def srExtract (diffContent : String) : Option (String × String) :=
  match strIndexOf diffContent "<<<<<<< SEARCH\n" with
  | none => none
  | some i =>
    let p := i + 15
    match strIndexOfFrom diffContent "\n=======\n" p with
    | none => none
    | some j =>
      let q := j + 9
      match strIndexOfFrom diffContent "\n>>>>>>> REPLACE" q with
      | none => none
      | some k => some (substr diffContent p j, substr diffContent q k)

/-- Modelled from the spec: `everyLineHasLineNumbers` lives in the
`integrations/misc/extract-text` module, which is not among the source
files; per the spec (§4.2 step 2) a line carries a line-number prefix
when it begins with optional blanks, digits, at least one blank and a
bar not followed by a second bar. -/
def lineHasLineNumber (l : String) : Bool :=
  let rest := l.data.dropWhile jsIsSpace
  let digits := rest.takeWhile Char.isDigit
  let rest2 := rest.dropWhile Char.isDigit
  let sp := rest2.takeWhile jsIsSpace
  let rest3 := rest2.dropWhile jsIsSpace
  decide (digits ≠ [] ∧ sp ≠ [] ∧ rest3.head? = some '|' ∧ rest3.tail.head? ≠ some '|')

/-- Modelled from the spec: `everyLineHasLineNumbers` — every line of
the content carries a line-number prefix. -/
def everyLineHasLineNumbers (s : String) : Bool :=
  (splitRN s).all lineHasLineNumber

/-- Modelled from the spec: strip one line-number prefix (and one
blank after the bar) from a line that has one. -/
def stripLineNumber (l : String) : String :=
  if lineHasLineNumber l then
    match ((l.data.dropWhile jsIsSpace).dropWhile Char.isDigit).dropWhile jsIsSpace with
    | '|' :: c :: restC => if jsIsSpace c then String.mk restC else String.mk (c :: restC)
    | '|' :: [] => ""
    | _ => l
  else l

/-- Modelled from the spec: `stripLineNumbers` applied per line. -/
def stripLineNumbers (s : String) : String :=
  joinNL ((splitRN s).map stripLineNumber)

/-- The line-number preprocessing step of `applyDiff`: strip only when
every line of both sections is numbered. -/
def srPreprocess (searchContent replaceContent : String) : String × String :=
  if everyLineHasLineNumbers searchContent && everyLineHasLineNumbers replaceContent then
    (stripLineNumbers searchContent, stripLineNumbers replaceContent)
  else (searchContent, replaceContent)

/-- The candidate scan loop of `applyDiff` (`for i = start; i < maxIndex`):
quick murmur-hash acceptance scores `1` and stops; every third index gets
a full similarity score, tracking the best, with early exit at `0.95`
(the constant `0.95` is exactly representable in the model and compares
identically to the JavaScript double). -/
def srScanGo (lines : List String) (searchChunk : String) (w : Nat) :
    Nat → Nat → ScanState → ScanState
  | _, 0, st => st
  | i, fuel + 1, st =>
    let chunk := joinNL ((lines.drop i).take w)
    if murmurHash3 chunk = murmurHash3 searchChunk then ⟨some i, 1, chunk⟩
    else if i % 3 = 0 then
      let sim := getSimilarity chunk searchChunk
      let st2 := if sim > st.best then ⟨some i, sim, chunk⟩ else st
      if st2.best ≥ mkRat 95 100 then st2
      else srScanGo lines searchChunk w (i + 1) fuel st2
    else srScanGo lines searchChunk w (i + 1) fuel st

/-- Run the scan from `startIdx` with `maxIndex = endIdx - w + 1`
computed in ℤ: a non-positive iteration count runs zero iterations,
as the JavaScript `for` loop does. -/
def srScanFrom (lines : List String) (searchChunk : String) (w startIdx endIdx : Nat) :
    ScanState :=
  srScanGo lines searchChunk w startIdx
    (((endIdx : Int) - w + 1 - startIdx).toNat) ⟨none, 0, ""⟩

/-- `^[\t ]*` — the indentation of a line (`getIndent`). -/
def getIndent (s : String) : String :=
  String.mk (s.data.takeWhile (fun c => c = ' ' || c = '\t'))

/-- The final gate and splice of `applyDiff`: reject when no match index
was set or the best score is below the threshold; otherwise re-indent the
replacement lines relative to the matched block and splice them in with
the document's line ending. -/
def srFinish (self : SRStrategy) (originalLines searchLines replaceLines : List String)
    (lineEnding : String) (st : ScanState) : SRResult :=
  match st.matchIndex with
  | none => .noMatch st.best self.fuzzyThreshold none st.bestContent
  | some mi =>
    if st.best < self.fuzzyThreshold then
      .noMatch st.best self.fuzzyThreshold (some mi) st.bestContent
    else
      let matchedLines := (originalLines.drop mi).take searchLines.length
      let originalIndent := getIndent (matchedLines.headD "")
      let searchBaseLevel := (getIndent (searchLines.headD "")).length
      let indentedReplaceLines := replaceLines.map (fun line =>
        let currentLevel := (getIndent line).length
        let finalIndent :=
          if currentLevel < searchBaseLevel then
            originalIndent.take (originalIndent.length - (searchBaseLevel - currentLevel))
          else
            originalIndent ++ (getIndent line).drop searchBaseLevel
        finalIndent ++ jsTrim line)
      let finalParts :=
        (if 0 < mi then [String.intercalate lineEnding (originalLines.take mi)] else []) ++
        [String.intercalate lineEnding indentedReplaceLines] ++
        (if mi + searchLines.length < originalLines.length then
          [String.intercalate lineEnding (originalLines.drop (mi + searchLines.length))]
        else [])
      .success (String.intercalate lineEnding finalParts) indentedReplaceLines.length st.best

/-- The body of `applyDiff` after marker extraction and line-number
stripping: the empty-search guards (with JavaScript truthiness on the
line options), the optional exact-range attempt with its widened window,
the candidate scan and the final gate/splice.  Metrics collection only
annotates the success result and is not modelled. -/
def srApplyCore2 (self : SRStrategy) (originalContent searchContent replaceContent : String)
    (startLine endLine : Option Nat) : SRResult :=
  let lineEnding := if strContains originalContent "\r\n" then "\r\n" else "\n"
  let searchLines := if searchContent = "" then [] else splitRN searchContent
  let replaceLines := if replaceContent = "" then [] else splitRN replaceContent
  let originalLines := splitRN originalContent
  if searchLines.isEmpty && !(jsTruthyNat startLine) then .emptySearchNoStart
  else if searchLines.isEmpty && jsTruthyNat startLine && jsTruthyNat endLine &&
      decide (startLine.getD 0 ≠ endLine.getD 0) then
    .emptySearchRange (startLine.getD 0) (endLine.getD 0)
  else
    let searchChunk := joinNL searchLines
    if jsTruthyNat startLine && jsTruthyNat endLine then
      let s := startLine.getD 0
      let e := endLine.getD 0
      if decide (e - 1 > originalLines.length) || decide (s - 1 > e - 1) then
        .invalidRange s e
      else
        let originalChunk := joinNL (jsSliceL originalLines (s - 1) e)
        let similarity := getSimilarity originalChunk searchChunk
        if similarity ≥ self.fuzzyThreshold then
          srFinish self originalLines searchLines replaceLines lineEnding
            ⟨some (s - 1), similarity, originalChunk⟩
        else
          let startIdx := (max 0 ((s : Int) - (self.bufferLines + 1))).toNat
          let endIdx := min originalLines.length (e + self.bufferLines)
          srFinish self originalLines searchLines replaceLines lineEnding
            (srScanFrom originalLines searchChunk searchLines.length startIdx endIdx)
    else
      srFinish self originalLines searchLines replaceLines lineEnding
        (srScanFrom originalLines searchChunk searchLines.length 0 originalLines.length)

/-- `applyDiff` after a successful regex extraction: preprocess the
two sections, then run the core. -/
def srApplyCore (self : SRStrategy) (originalContent searchContent replaceContent : String)
    (startLine endLine : Option Nat) : SRResult :=
  let pp := srPreprocess searchContent replaceContent
  srApplyCore2 self originalContent pp.1 pp.2 startLine endLine

/-- `SearchReplaceDiffStrategy.applyDiff`. -/
def srApplyDiff (self : SRStrategy) (originalContent diffContent : String)
    (startLine endLine : Option Nat) : SRResult :=
  match srExtract diffContent with
  | none =>
    .invalidFormat (!strContains diffContent "<<<<<<< SEARCH")
      (!strContains diffContent "=======") (!strContains diffContent ">>>>>>> REPLACE")
  | some (sc, rc) => srApplyCore self originalContent sc rc startLine endLine

/-- The scan state `applyDiff` reaches on the no-line-hint path, as a
standalone definition for stating the acceptance-gate theorems. -/
def srScanResult (originalContent searchContent : String) : ScanState :=
  srScanFrom (splitRN originalContent) (joinNL (splitRN searchContent))
    (splitRN searchContent).length 0 (splitRN originalContent).length

/-! ## Gap buffer and Optimized Unified strategy (`optimized-unified.ts`)

The JavaScript buffer is an array of strings: `content.split("")`
yields one-character strings and the gap slots are empty strings;
`join("")` concatenates, so empty slots vanish.  The model keeps the
array as a `List String` with exactly those elements. -/

/-- `GAP_BUFFER_SIZE` from `optimized-unified.ts`. -/
def GAP_BUFFER_SIZE : Nat := 1024

/-- The `GapBuffer` class state. -/
structure GapBuffer where
  buffer : List String
  gapStart : Nat
  gapEnd : Nat

/-- `new GapBuffer(content, gapSize)`: split into characters, then
splice `gapSize` empty strings in front. -/
def GapBuffer.ofContent (content : String) (gapSize : Nat) : GapBuffer :=
  ⟨jsSpliceIns (content.data.map (fun c => String.mk [c])) 0 0
      (List.replicate gapSize ""), 0, gapSize⟩

/-- `GapBuffer.moveGap`. -/
def GapBuffer.moveGap (b : GapBuffer) (pos : Nat) : GapBuffer :=
  if pos = b.gapStart then b
  else
    let gapSize := b.gapEnd - b.gapStart
    if pos < b.gapStart then
      let moveSize := b.gapStart - pos
      let temp := jsSliceL b.buffer pos b.gapStart
      ⟨jsSpliceIns b.buffer (b.gapEnd - moveSize) moveSize temp, pos, pos + gapSize⟩
    else
      let moveSize := pos - b.gapStart
      let temp := jsSliceL b.buffer b.gapEnd (b.gapEnd + moveSize)
      ⟨jsSpliceIns b.buffer b.gapStart moveSize temp, pos, pos + gapSize⟩

/-- `GapBuffer.insert`. -/
def GapBuffer.insert (b0 : GapBuffer) (pos : Nat) (content : String) : GapBuffer :=
  let b := b0.moveGap pos
  let chars := content.data.map (fun c => String.mk [c])
  let b2 :=
    if chars.length > b.gapEnd - b.gapStart then
      let extra := chars.length - (b.gapEnd - b.gapStart)
      ⟨jsSpliceIns b.buffer b.gapEnd 0 (List.replicate extra ""), b.gapStart,
        b.gapEnd + extra⟩
    else b
  ⟨jsSpliceIns b2.buffer b2.gapStart chars.length chars, b2.gapStart + chars.length,
    b2.gapEnd⟩

/-- `GapBuffer.replace(start, end, content)`. -/
def GapBuffer.repl (b0 : GapBuffer) (start e : Nat) (content : String) : GapBuffer :=
  let b := b0.moveGap start
  let deleteCount := e - start
  let b2 : GapBuffer := ⟨jsSpliceDel b.buffer b.gapStart deleteCount, b.gapStart, b.gapEnd⟩
  b2.insert start content

/-- `GapBuffer.slice(start, end)`: indices falling inside the gap are
bumped to `gapEnd` before slicing. -/
def GapBuffer.sliceStr (b : GapBuffer) (s e : Nat) : String :=
  let s2 := if s ≥ b.gapStart ∧ s < b.gapEnd then b.gapEnd else s
  let e2 := if e ≥ b.gapStart ∧ e < b.gapEnd then b.gapEnd else e
  jsJoin (jsSliceL b.buffer s2 e2)

/-- `GapBuffer.toString`. -/
def GapBuffer.render (b : GapBuffer) : String :=
  jsJoin (jsSliceL b.buffer 0 b.gapStart ++ b.buffer.drop b.gapEnd)

/-- A parsed unified-diff hunk (`DiffHunk` in `optimized-unified.ts`;
the `end` field is called `endPos` since `end` is reserved). -/
structure DiffHunk where
  start : Nat
  endPos : Nat
  removed : List String
  added : List String
  context : List String
deriving DecidableEq

/-- Parse one or more digits off a character list. -/
def takeDigits : List Char → Option (Nat × List Char)
  | l =>
    let ds := l.takeWhile Char.isDigit
    if ds = [] then none
    else some (digitsToNat ds, l.dropWhile Char.isDigit)

/-- Try to match `@@ -(\d+)(?:,\d+)? \+(\d+)(?:,\d+)? @@` at the head
of the list, returning the two captured numbers. -/
def matchHunkAt (l : List Char) : Option (Nat × Nat) :=
  match l with
  | '@' :: '@' :: ' ' :: '-' :: rest =>
    match takeDigits rest with
    | none => none
    | some (d1, r1) =>
      let r1b := match r1 with
        | ',' :: r2 => match takeDigits r2 with
          | some (_, r3) => r3
          | none => ',' :: r2
        | _ => r1
      match r1b with
      | ' ' :: '+' :: r4 =>
        match takeDigits r4 with
        | none => none
        | some (d2, r5) =>
          let r5b := match r5 with
            | ',' :: r6 => match takeDigits r6 with
              | some (_, r7) => r7
              | none => ',' :: r6
            | _ => r5
          match r5b with
          | ' ' :: '@' :: '@' :: _ => some (d1, d2)
          | _ => none
      | _ => none
  | _ => none

/-- Leftmost (unanchored) match of the hunk-header pattern. -/
def findHunkPat : List Char → Option (Nat × Nat)
  | [] => none
  | c :: rest =>
    match matchHunkAt (c :: rest) with
    | some p => some p
    | none => findHunkPat rest

/-- `parseHunkHeader`: throws `"Invalid hunk header format"` when the
regex does not match anywhere in the line. -/
def parseHunkHeaderOU (header : String) : Except String (Nat × Nat) :=
  match findHunkPat header.data with
  | some p => .ok p
  | none => .error "Invalid hunk header format"

/-- The line-by-line loop of `parseUnifiedDiff` over `split("\n")`,
carrying the current hunk and the finished ones. -/
def parseOUGo : List String → Option DiffHunk → List DiffHunk →
    Except String (List DiffHunk)
  | [], cur, acc => .ok (acc ++ cur.toList)
  | line :: rest, cur, acc =>
    if jsStartsWith line "@@" then
      match parseHunkHeaderOU line with
      | .error e => .error e
      | .ok (start, count) =>
        parseOUGo rest (some ⟨start, start + count, [], [], []⟩) (acc ++ cur.toList)
    else
      match cur with
      | none => parseOUGo rest none acc
      | some h =>
        if jsStartsWith line "-" then
          parseOUGo rest (some ⟨h.start, h.endPos, h.removed ++ [line.drop 1],
            h.added, h.context⟩) acc
        else if jsStartsWith line "+" then
          parseOUGo rest (some ⟨h.start, h.endPos, h.removed,
            h.added ++ [line.drop 1], h.context⟩) acc
        else if jsStartsWith line " " then
          parseOUGo rest (some ⟨h.start, h.endPos, h.removed,
            h.added, h.context ++ [line.drop 1]⟩) acc
        else parseOUGo rest (some h) acc

/-- `OptimizedUnifiedStrategy.parseUnifiedDiff`. -/
def parseUnifiedDiffOU (diffContent : String) : Except String (List DiffHunk) :=
  parseOUGo (splitOnChar '\n' diffContent) none []

/-- The `every((line, i) => contextLines[i].trim() === line.trim())`
check of `verifyContext`: indexing past the end of `contextLines` is
the JavaScript `undefined.trim()` TypeError, modelled as an error that
the surrounding `try` converts to a failure result. -/
def vcGo (contextLines : List String) : List String → Nat → Except String Bool
  | [], _ => .ok true
  | line :: rest, i =>
    match contextLines.get? i with
    | none => .error "TypeError: undefined context line"
    | some cl => if jsTrim cl = jsTrim line then vcGo contextLines rest (i + 1)
      else .ok false

/-- `OptimizedUnifiedStrategy.verifyContext`: compares the hunk's
context lines against the lines of the buffer slice at character
positions `[hunk.start, hunk.end)`. -/
def verifyContextOU (b : GapBuffer) (h : DiffHunk) : Except String Bool :=
  vcGo (splitOnChar '\n' (b.sliceStr h.start h.endPos)) h.context 0

/-- `processHunksSequentially`: verify each hunk's context, throwing
`"Context mismatch in hunk"` on a mismatch, then splice the added
lines over `[start, end)`. -/
def processHunksSequentiallyOU : List DiffHunk → GapBuffer → Except String GapBuffer
  | [], b => .ok b
  | h :: rest, b =>
    match verifyContextOU b h with
    | .error e => .error e
    | .ok false => .error "Context mismatch in hunk"
    | .ok true => processHunksSequentiallyOU rest (b.repl h.start h.endPos (joinNL h.added))

/-- The result of `OptimizedUnifiedStrategy.applyDiff` (metrics are
only attached to a success and are not modelled). -/
inductive OUDiffResult
  | success (content : String) (appliedLines : Nat)
  | failure (error : String)
deriving DecidableEq

/-- `OptimizedUnifiedStrategy.applyDiff`.  The parallel branch (taken
only when the caller passes `fileStats` larger than 1 MiB) partitions
the hunk list into contiguous chunks and runs the same synchronous
`processHunksSequentially` on each in order against the one shared
buffer, which is the same sequential fold; the claims below pass no
`fileStats`, so the sequential path is the one modelled. -/
def optimizedApplyDiff (originalContent diffContent : String) : OUDiffResult :=
  match parseUnifiedDiffOU diffContent with
  | .error e => .failure ("Failed to apply unified diff: " ++ e)
  | .ok hunks =>
    match processHunksSequentiallyOU hunks
        (GapBuffer.ofContent originalContent GAP_BUFFER_SIZE) with
    | .error e => .failure ("Failed to apply unified diff: " ++ e)
    | .ok b => .success b.render (hunks.foldl (fun sum h => sum + h.added.length) 0)

/-! ## Smart Hybrid strategy (`smart-hybrid.ts`)

The external pieces are abstracted without losing the control flow:
the `crypto` SHA-1/SHA-256 digests and the three Go-signature
extractors (plain regex rewrites of single lines) are parameters
bundled in `SHEnv`, so every theorem below holds for all of them;
`Date.now()` is the `now` field.  The `lru-cache` hot cache is
modelled as a map (its TTL and eviction can only turn hits into
misses, and no claim depends on them).  The `WeakMap` warm cache is
keyed by object identity, modelled by allocation numbers:
`nextObjId` is the id the next freshly allocated key object gets. -/

/-- The environment of external functions used by the strategy. -/
structure SHEnv where
  sha1 : String → String
  sha256 : String → String
  goFuncSignature : String → String
  goTypeDefinition : String → String
  goImportNorm : String → String
  now : Nat

/-- `HybridHash`. -/
structure HybridHash where
  structural : String
  semantic : String
  chunks : List String
deriving DecidableEq

/-- `CacheEntry` of the Smart Hybrid strategy. -/
structure SHCacheEntry where
  hash : HybridHash
  result : String
  timestamp : Nat

/-- The mutable state of a `SmartHybridStrategy` instance. -/
structure SHState where
  hotCache : List (String × SHCacheEntry)
  warmCache : List (Nat × SHCacheEntry)
  nextObjId : Nat

/-- A freshly constructed `SmartHybridStrategy`. -/
def SHState.fresh : SHState := ⟨[], [], 0⟩

/-- Which tier produced the returned result. -/
inductive SHServed
  | hot
  | warm
  | computed
  | failed
deriving DecidableEq

/-- The result of `SmartHybridStrategy.applyDiff`: a success carries
the content, `content.split("\n").length` as `appliedLines`, and the
constant `accuracyScore` of `1.0` reported when metrics are collected. -/
inductive SHResult
  | success (content : String) (appliedLines : Nat) (accuracyScore : ℚ)
  | failure (error : String)
deriving DecidableEq

/-- `CHUNK_SIZE` of `smart-hybrid.ts`. -/
def SH_CHUNK_SIZE : Nat := 64

/-- The base64 alphabet value of a character. -/
def b64Val (c : Char) : Option Nat :=
  if 'A' ≤ c ∧ c ≤ 'Z' then some (c.toNat - 65)
  else if 'a' ≤ c ∧ c ≤ 'z' then some (c.toNat - 97 + 26)
  else if '0' ≤ c ∧ c ≤ '9' then some (c.toNat - 48 + 52)
  else if c = '+' then some 62
  else if c = '/' then some 63
  else none

/-- Decode a base64 string to bytes (strict groups of four; padding and
trailing partial groups are dropped, enough for the tag checks below). -/
def base64Bytes : List Char → List Nat
  | a :: b :: c :: d :: rest =>
    match b64Val a, b64Val b, b64Val c, b64Val d with
    | some va, some vb, some vc, some vd =>
      (va <<< 2 ||| vb >>> 4) :: (mask32 (vb <<< 4) % 256 ||| vc >>> 2) ::
        ((vc <<< 6) % 256 ||| vd) :: base64Bytes rest
    | _, _, _, _ => []
  | _ => []

/-- `isCborEncoded`: a `"base64:"` prefix whose decoded first byte is
`0xd9`. -/
def isCborEncoded (content : String) : Bool :=
  jsStartsWith content "base64:" &&
    (base64Bytes (content.drop 7).data).head? = some 0xd9

/-- `decodeCbor`: strip the prefix, decode, drop the two tag bytes and
read the remainder as text (byte-per-character). -/
def decodeCbor (content : String) : String :=
  String.mk (((base64Bytes (content.drop 7).data).drop 2).map Char.ofNat)

/-- `chunkContent`: fixed 64-character slices. -/
def chunkContent (l : List Char) : List String :=
  if h : l = [] then []
  else String.mk (l.take SH_CHUNK_SIZE) :: chunkContent (l.drop SH_CHUNK_SIZE)
termination_by l.length
decreasing_by
  have : 0 < l.length := List.length_pos.mpr h
  simp only [List.length_drop, SH_CHUNK_SIZE]
  omega

/-- One line's contribution to the structural hasher (`generateHybridHash`
feeds the hasher line by line; a sequence of `update` calls hashes the
concatenation, so the structural hash is `sha1` of the joined pieces). -/
def structuralPiece (env : SHEnv) (fileExt : Option String) (line : String) : String :=
  let trimmedLine := jsTrim line
  if fileExt = some "go" then
    if jsStartsWith trimmedLine "func " then "func:" ++ env.goFuncSignature trimmedLine
    else if jsStartsWith trimmedLine "type " then "type:" ++ env.goTypeDefinition trimmedLine
    else if jsStartsWith trimmedLine "package " then
      "package:" ++ ((splitOnChar ' ' trimmedLine).getD 1 "")
    else if jsStartsWith trimmedLine "import " then "import:" ++ env.goImportNorm trimmedLine
    else trimmedLine
  else trimmedLine

/-- `generateHybridHash`. -/
def generateHybridHash (env : SHEnv) (content : String) (fileExt : Option String) :
    HybridHash :=
  let lines := splitOnChar '\n' content
  ⟨env.sha1 (jsJoin (lines.map (structuralPiece env fileExt))),
    env.sha256 content,
    (chunkContent content.data).map env.sha1⟩

/-- `getCacheKey`. -/
def getCacheKey (env : SHEnv) (hash : HybridHash) (diffContent : String) : String :=
  hash.structural ++ ":" ++ hash.semantic ++ ":" ++ env.sha1 diffContent

/-- `hashesMatch`. -/
def hashesMatch (a b : HybridHash) : Bool :=
  a.structural = b.structural && a.semantic = b.semantic && decide (a.chunks = b.chunks)

/-- `parseDiffContent`: two independent lazy regexes — the search
section sits between the first `"<<<<<<< SEARCH\n"` and the first
`"\n=======\n"` after it, the replace section between the first
`"=======\n"` anywhere and the first `"\n>>>>>>> REPLACE"` after it. -/
def shParseDiffContent (diffContent : String) : Option (String × String) :=
  match strIndexOf diffContent "<<<<<<< SEARCH\n" with
  | none => none
  | some i =>
    match strIndexOfFrom diffContent "\n=======\n" (i + 15) with
    | none => none
    | some j =>
      match strIndexOf diffContent "=======\n" with
      | none => none
      | some j2 =>
        match strIndexOfFrom diffContent "\n>>>>>>> REPLACE" (j2 + 8) with
        | none => none
        | some k => some (substr diffContent (i + 15) j, substr diffContent (j2 + 8) k)

/-- `createSuccessResult`. -/
def createSuccessResult (content : String) : SHResult :=
  .success content (splitOnChar '\n' content).length 1

/-- The CBOR normalisation at the top of `applyDiff`. -/
def shNormalizeInput (originalContent0 : String) : String :=
  if isCborEncoded originalContent0 then decodeCbor originalContent0 else originalContent0

/-- `options?.fileStats?.path` to extension, as `generateHybridHash`
computes it. -/
def shFileExt (fileStatsPath : Option String) : Option String :=
  fileStatsPath.map (fun p => jsToLower ((splitOnChar '.' p).getLastD ""))

/-- The body of `applyDiff` after CBOR normalisation and diff parsing:
cache lookups and the literal replace.  The `contentKey` object for the
warm-cache lookup is allocated fresh inside the call
(`{ content: originalContent }`), so its id is `st.nextObjId`. -/
def shProcess (env : SHEnv) (st : SHState)
    (originalContent diffContent searchContent replaceContent : String)
    (fileExt : Option String) : SHResult × SHState × SHServed :=
  let hash := generateHybridHash env originalContent fileExt
  let cacheKey := getCacheKey env hash diffContent
  match jsMapGet st.hotCache cacheKey with
  | some e => (createSuccessResult e.result, st, .hot)
  | none =>
    let contentKey := st.nextObjId
    let warmHit :=
      match jsMapGet st.warmCache contentKey with
      | some e => if hashesMatch e.hash hash then some e else none
      | none => none
    match warmHit with
    | some e => (createSuccessResult e.result, st, .warm)
    | none =>
      let normalizedSearchContent := replaceRN searchContent
      let normalizedOriginalContent := replaceRN originalContent
      if strContains normalizedOriginalContent normalizedSearchContent then
        let processedContent := strReplaceFirst normalizedOriginalContent
          normalizedSearchContent (replaceRN replaceContent)
        let entry : SHCacheEntry := ⟨hash, processedContent, env.now⟩
        (createSuccessResult processedContent,
          ⟨jsMapSet st.hotCache cacheKey entry,
            st.warmCache ++ [(contentKey, entry)], contentKey + 1⟩, .computed)
      else
        (.failure "Search content not found in original content",
          ⟨st.hotCache, st.warmCache, contentKey + 1⟩, .failed)

/-- `SmartHybridStrategy.applyDiff`.  Returns the result, the updated
instance state and the tier that served the result. -/
def shApplyDiff (env : SHEnv) (st : SHState) (originalContent0 diffContent : String)
    (fileStatsPath : Option String) : SHResult × SHState × SHServed :=
  let originalContent := shNormalizeInput originalContent0
  match shParseDiffContent diffContent with
  | none => (.failure "Invalid diff format", st, .failed)
  | some (searchContent, replaceContent) =>
    shProcess env st originalContent diffContent searchContent replaceContent
      (shFileExt fileStatsPath)

/-- The warm-cache well-formedness invariant: every key stored in the
`WeakMap` model was allocated before the next fresh id. -/
def SHInv (st : SHState) : Prop :=
  ∀ p ∈ st.warmCache, p.1 < st.nextObjId

/-! ## Strategy selector (`index.ts`) and the AST language guard -/

/-- `FileStats` from `types.ts` (`lastModified : Date` is a number). -/
structure FileStats where
  size : Nat
  path : String
  language : Option String
  lastModified : Nat
deriving DecidableEq

/-- The strategy instance returned by the selector, carrying the
constructor-resolved fields each class stores (`SmartHybridStrategy`'s
constructor takes no arguments). -/
inductive Strategy
  | parallel (fuzzyMatchThreshold : ℚ)
  | astAware (fuzzyMatchThreshold : ℚ) (maxCacheSize : Nat)
  | smartHybrid
  | optimizedUnified (fuzzyMatchThreshold : ℚ)
  | searchReplace (fuzzyThreshold : ℚ) (bufferLines : Nat)
deriving DecidableEq

/-- `LARGE_FILE_THRESHOLD`. -/
def LARGE_FILE_THRESHOLD : Nat := 1024 * 1024

/-- `filePath.split(".").pop()?.toLowerCase()`. -/
def lastExtLower (p : String) : String :=
  jsToLower ((splitOnChar '.' p).getLastD "")

/-- `hasAstSupport`. -/
def hasAstSupport (filePath : Option String) : Bool :=
  match filePath with
  | none => false
  | some p => ["js", "jsx", "ts", "tsx", "go"].contains (lastExtLower p)

/-- The `threshold` local of `getDiffStrategy`: the legacy case where
the second parameter is a number takes precedence over the third. -/
def effectiveThreshold (fileStatsOrThreshold : Option (FileStats ⊕ ℚ))
    (fuzzyMatchThreshold : Option ℚ) : Option ℚ :=
  match fileStatsOrThreshold with
  | some (.inr q) => some q
  | _ => fuzzyMatchThreshold

/-- The `fileStats` local of `getDiffStrategy` (the legacy second
argument is only file stats when it is an object). -/
def statsOfArg (fileStatsOrThreshold : Option (FileStats ⊕ ℚ)) : Option FileStats :=
  match fileStatsOrThreshold with
  | some (.inl fs) => some fs
  | _ => none

/-- `getDiffStrategy(model, fileStatsOrThreshold?, fuzzyMatchThreshold?)`.
The second argument is a legacy union; the `experimentalStrategy` flag
is unused by the body.  The `fileStats?.size &&` guards use JavaScript
truthiness (`size = 0` is falsy). -/
def getDiffStrategy (_model : String) (fileStatsOrThreshold : Option (FileStats ⊕ ℚ))
    (fuzzyMatchThreshold : Option ℚ) : Strategy :=
  let threshold : Option ℚ := effectiveThreshold fileStatsOrThreshold fuzzyMatchThreshold
  let fileStats : Option FileStats := statsOfArg fileStatsOrThreshold
  if (match fileStats with
      | some fs => decide (fs.size ≠ 0) && decide (fs.size > LARGE_FILE_THRESHOLD)
      | none => false : Bool) then
    .parallel (threshold.getD (mkRat 9 10))
  else if hasAstSupport (fileStats.map (·.path)) then
    .astAware (threshold.getD (mkRat 9 10)) 50
  else
    match fileStats with
    | some fs =>
      if decide (fs.size ≠ 0) && decide (fs.size ≤ LARGE_FILE_THRESHOLD) then
        let ext := lastExtLower fs.path
        if ext ≠ "" ∧ ["json", "txt", "md", "yml", "yaml", "go"].contains ext then
          .smartHybrid
        else .optimizedUnified (threshold.getD (mkRat 9 10))
      else .searchReplace (threshold.getD 1) BUFFER_LINES
    | none => .searchReplace (threshold.getD 1) BUFFER_LINES

/-- The `fuzzyMatchThreshold`/`fuzzyThreshold` field of the returned
instance, when the strategy has one. -/
def thresholdOf : Strategy → Option ℚ
  | .parallel t => some t
  | .astAware t _ => some t
  | .smartHybrid => none
  | .optimizedUnified t => some t
  | .searchReplace t _ => some t

/-- `AstAwareStrategy.detectLanguage`. -/
def detectLanguage (filePath : Option String) : String :=
  match filePath with
  | none => "javascript"
  | some p =>
    match lastExtLower p with
    | "js" => "javascript"
    | "jsx" => "javascript"
    | "ts" => "typescript"
    | "tsx" => "typescript"
    | _ => "unknown"

/-- `AstAwareStrategy.isLanguageSupported`. -/
def isLanguageSupported (language : String) : Bool :=
  ["javascript", "typescript"].contains language

/-- The language guard at the top of `AstAwareStrategy.applyDiff`: an
unsupported language throws, and the surrounding catch returns this
failure message; a supported language proceeds (`none`). -/
def astApplyGuard (filePath : Option String) : Option String :=
  let language := detectLanguage filePath
  if isLanguageSupported language then none
  else some ("Failed to apply AST-aware diff: Language " ++ language ++
    " is not supported for AST-aware diffing")

/-! ## Derived notions used to state the Search-Replace theorems -/

/-- The search chunk `applyDiff` scans for. -/
def srSearchChunk (searchContent : String) : String :=
  joinNL (splitRN searchContent)

/-- The candidate window at line index `j` on the no-line-hint path. -/
def srWindow (originalContent searchContent : String) (j : Nat) : String :=
  joinNL (((splitRN originalContent).drop j).take (splitRN searchContent).length)

/-- The number of scan iterations (`maxIndex`) on the no-line-hint path. -/
def srMaxIndex (originalContent searchContent : String) : Nat :=
  (((splitRN originalContent).length : Int) - (splitRN searchContent).length + 1).toNat

/-!
# Theorems

First general-purpose lemmas about the embedded definitions, then one
theorem per claim (with its witness or counterexample where required).
-/

/-! ## Basic lemmas -/

lemma str_empty_append (s : String) : "" ++ s = s := by
  cases s
  rfl

lemma str_mk_append (a b : List Char) : String.mk a ++ String.mk b = String.mk (a ++ b) :=
  rfl

lemma jsJoin_chars (l : List Char) :
    jsJoin (l.map (fun c => String.mk [c])) = String.mk l := by
  induction l with
  | nil => rfl
  | cons c rest ih =>
    simp only [List.map_cons, jsJoin, ih]
    rfl

lemma splitRNGo_ne_nil (l : List Char) : ∀ acc, splitRNGo l acc ≠ [] := by
  induction l with
  | nil => intro acc; simp [splitRNGo]
  | cons c rest ih =>
    intro acc
    by_cases hc : c = '\n'
    · simp [splitRNGo, hc]
    · simpa [splitRNGo, hc] using ih (c :: acc)

lemma splitRN_ne_nil (s : String) : splitRN s ≠ [] :=
  splitRNGo_ne_nil s.data []

lemma splitRN_isEmpty_false (s : String) : (splitRN s).isEmpty = false := by
  cases h : splitRN s with
  | nil => exact absurd h (splitRN_ne_nil s)
  | cons a l => rfl

/-- A gap buffer read back immediately after construction yields the
original content. -/
lemma render_ofContent (s : String) (g : Nat) : (GapBuffer.ofContent s g).render = s := by
  unfold GapBuffer.ofContent GapBuffer.render jsSpliceIns jsSliceL
  simp only [List.take_zero, List.drop_zero, Nat.add_zero, List.nil_append, List.take,
    List.drop]
  have hdrop :
      (List.replicate g ("" : String) ++ s.data.map (fun c => String.mk [c])).drop g =
        s.data.map (fun c => String.mk [c]) := by
    have h2 := List.drop_left (List.replicate g ("" : String))
      (s.data.map fun c => String.mk [c])
    rwa [List.length_replicate] at h2
  rw [hdrop]
  exact jsJoin_chars s.data

/-! ## Claim C8 -/

/-- C8: the gap buffer is content-preserving when unmodified — for every
string `s` and gap size `g`, `GapBuffer(s, g).toString()` is exactly `s`;
consequently Optimized Unified `applyDiff` on a diff parsing to no hunks
succeeds with content identical to the original (and zero applied lines). -/
theorem claim_C8 (s : String) (g : Nat) (d : String)
    (hparse : parseUnifiedDiffOU d = .ok []) :
    (GapBuffer.ofContent s g).render = s ∧
      optimizedApplyDiff s d = .success s 0 := by
  refine ⟨render_ofContent s g, ?_⟩
  unfold optimizedApplyDiff
  rw [hparse]
  simp only [processHunksSequentiallyOU, List.foldl_nil]
  rw [render_ofContent]

/-- Witness for C8 at a concrete content, gap size and hunkless diff. -/
theorem claim_C8_witness :
    (GapBuffer.ofContent "ab" 3).render = "ab" ∧
      optimizedApplyDiff "ab" "hello" = .success "ab" 0 :=
  claim_C8 "ab" 3 "hello" (by rfl)

/-! ## Claim C1 -/

/-- C1: evaluation of the selector at a small `.go` file.  The code
returns the AST-Aware strategy (not Smart Hybrid, the strategy rule 3
would pick), and the AST-Aware strategy's own language guard rejects
`go` files with an unsupported-language failure, so selection never
"fails over to the next rule" as the claim requires. -/
theorem claim_C1 :
    getDiffStrategy "gpt-4" (some (Sum.inl ⟨1000, "main.go", none, 0⟩)) (some (mkRat 9 10)) =
      .astAware (mkRat 9 10) 50 ∧
    Strategy.astAware (mkRat 9 10) 50 ≠ .smartHybrid ∧
    astApplyGuard (some "main.go") = some
      ("Failed to apply AST-aware diff: Language unknown is not supported " ++
        "for AST-aware diffing") := by
  refine ⟨by decide, by decide, ?_⟩
  decide

/-! ## Claim C2 -/

set_option maxRecDepth 40000 in
/-- C2: evaluation of Optimized Unified `applyDiff` at a hunk whose
single context line (empty after trimming the diff's `" "` line) matches
no line of the original even whitespace-trimmed — a context mismatch in
the claim's sense — yet the code applies the hunk and returns success
with garbled content: `verifyContext` slices the gap buffer at character
positions (the hunk's line numbers), which for positions inside the
initial 1024-slot gap yields the empty string and vacuously passes. -/
theorem claim_C2 :
    (∀ l ∈ splitRN "abc\ndef\nghi", jsTrim l ≠ jsTrim "") ∧
    optimizedApplyDiff "abc\ndef\nghi" "@@ -1,2 +1,2 @@\n \n+new" =
      .success "anewc\ndef\nghi" 1 := by
  constructor
  · decide
  · decide

/-! ## Claim C9 -/

lemma jsMapSet_length_le {K V : Type} [DecidableEq K] (m : List (K × V)) (k : K) (v : V) :
    (jsMapSet m k v).length ≤ m.length + 1 := by
  induction m with
  | nil => simp [jsMapSet]
  | cons p rest ih =>
    obtain ⟨k0, v0⟩ := p
    by_cases hk : k0 = k
    · simp [jsMapSet, hk]
    · simp only [jsMapSet, if_neg hk, List.length_cons]
      omega

lemma jsMapGet_some_delete_length {K V : Type} [DecidableEq K] (m : List (K × V)) (k : K)
    (v : V) (h : jsMapGet m k = some v) :
    (jsMapDelete m k).length + 1 = m.length := by
  induction m with
  | nil => simp [jsMapGet] at h
  | cons p rest ih =>
    obtain ⟨k0, v0⟩ := p
    by_cases hk : k0 = k
    · simp [jsMapDelete, hk]
    · simp only [jsMapGet, if_neg hk] at h
      simp only [jsMapDelete, if_neg hk, List.length_cons]
      have h2 := ih h
      omega

lemma lru_get_length_le {K V : Type} [DecidableEq K] (c : LRUCache K V) (k : K)
    (hle : c.data.length ≤ c.maxSize) : ((c.get k).2).data.length ≤ c.maxSize := by
  unfold LRUCache.get
  cases hg : jsMapGet c.data k with
  | none => simpa using hle
  | some v =>
    simp only
    have h1 := jsMapGet_some_delete_length c.data k v hg
    have h2 := jsMapSet_length_le (jsMapDelete c.data k) k v
    omega

lemma lru_get_maxSize {K V : Type} [DecidableEq K] (c : LRUCache K V) (k : K) :
    ((c.get k).2).maxSize = c.maxSize := by
  unfold LRUCache.get
  cases jsMapGet c.data k <;> simp

lemma lru_set_length_le {K V : Type} [DecidableEq K] (c : LRUCache K V) (k : K) (v : V)
    (hmax : 1 ≤ c.maxSize) (hle : c.data.length ≤ c.maxSize) :
    (c.set k v).data.length ≤ c.maxSize := by
  unfold LRUCache.set
  by_cases hcap : c.data.length ≥ c.maxSize
  · have hlen : c.data.length = c.maxSize := le_antisymm hle hcap
    cases hd : c.data with
    | nil =>
      rw [hd] at hlen
      simp at hlen
      omega
    | cons p rest =>
      obtain ⟨k0, v0⟩ := p
      rw [hd] at hcap hlen
      have hget : jsMapGet ((k0, v0) :: rest) k0 = some v0 := by simp [jsMapGet]
      have h1 := jsMapGet_some_delete_length ((k0, v0) :: rest) k0 v0 hget
      have h2 := jsMapSet_length_le (jsMapDelete ((k0, v0) :: rest) k0) k v
      simp only [if_pos hcap, List.head?_cons]
      simp only [List.length_cons] at hlen h1
      omega
  · have hlt : c.data.length < c.maxSize := lt_of_not_ge hcap
    simp only [if_neg hcap]
    have h2 := jsMapSet_length_le c.data k v
    omega

lemma lru_runOps_le {K V : Type} [DecidableEq K] (ops : List (LRUOp K V)) :
    ∀ c : LRUCache K V, 1 ≤ c.maxSize → c.data.length ≤ c.maxSize →
      (c.runOps ops).data.length ≤ c.maxSize := by
  induction ops with
  | nil => intro c _ hle; exact hle
  | cons op rest ih =>
    intro c hmax hle
    cases op with
    | get k =>
      have h1 := lru_get_length_le c k hle
      have h2 := lru_get_maxSize c k
      have h3 := ih ((c.get k).2) (by rw [h2]; exact hmax) (by rw [h2]; exact h1)
      rw [h2] at h3
      exact h3
    | set k v =>
      have h1 := lru_set_length_le c k v hmax hle
      have h3 := ih (c.set k v) hmax h1
      exact h3

/-- C9 (amended): the cache is capacity-bounded — for every maximum size
of at least one and every sequence of `get`/`set` operations the size
stays at or below the maximum after every operation; in particular the
shared `similarityCache` (capacity `MAX_CACHE_SIZE = 1000`) never holds
more than 1000 entries.  The evicted entry, however, is the least
recently inserted-or-accessed one (a `get` refreshes the entry's
position), not the oldest-inserted one — see the counterexample. -/
theorem claim_C9 :
    (∀ (K V : Type) (_inst : DecidableEq K) (maxSize : Nat), 1 ≤ maxSize →
      ∀ ops : List (LRUOp K V),
        ((LRUCache.empty K V maxSize).runOps ops).data.length ≤ maxSize) ∧
    (MAX_CACHE_SIZE = 1000 ∧
      ∀ ops : List (LRUOp String ℚ),
        ((LRUCache.empty String ℚ MAX_CACHE_SIZE).runOps ops).data.length ≤ 1000) := by
  have hmain : ∀ (K V : Type) (_inst : DecidableEq K) (maxSize : Nat), 1 ≤ maxSize →
      ∀ ops : List (LRUOp K V),
        ((LRUCache.empty K V maxSize).runOps ops).data.length ≤ maxSize := by
    intro K V _inst maxSize hmax ops
    exact lru_runOps_le ops (LRUCache.empty K V maxSize) hmax (by simp [LRUCache.empty])
  refine ⟨hmain, rfl, ?_⟩
  intro ops
  exact hmain String ℚ inferInstance MAX_CACHE_SIZE (by decide) ops

/-- Witness for C9 at a concrete capacity and operation sequence. -/
theorem claim_C9_witness :
    ((LRUCache.empty Nat Nat 2).runOps
      [.set 1 10, .set 2 20, .get 1, .set 3 30]).data.length ≤ 2 :=
  claim_C9.1 Nat Nat inferInstance 2 (by decide)
    [.set 1 10, .set 2 20, .get 1, .set 3 30]

/-- Counterexample for C9 as stated: with capacity 2, after `set 1`,
`set 2`, `get 1`, `set 3` the cache holds keys 1 and 3 — key 2,
inserted after key 1, was evicted while the oldest-inserted key 1
survives (its `get` refreshed it), so a set at capacity does not evict
the oldest-inserted entry. -/
theorem claim_C9_counterexample :
    ((LRUCache.empty Nat Nat 2).runOps
      [.set 1 10, .set 2 20, .get 1, .set 3 30]).data = [(1, 10), (3, 30)] ∧
    jsMapGet ((LRUCache.empty Nat Nat 2).runOps
      [.set 1 10, .set 2 20, .get 1, .set 3 30]).data 2 = none := by
  constructor
  · decide
  · decide

/-! ## Claim C7 -/

/-- C7 (amended): the caller-supplied fuzzy threshold (including the
legacy second-argument form) is passed through unchanged to the chosen
strategy for the four strategies whose constructors take one; the
Smart Hybrid constructor takes no threshold argument, so when Smart
Hybrid is selected the threshold is dropped — see the counterexample. -/
theorem claim_C7 (model : String) (fsOrTh : Option (FileStats ⊕ ℚ)) (th : Option ℚ)
    (q : ℚ) (hq : effectiveThreshold fsOrTh th = some q) :
    getDiffStrategy model fsOrTh th = .smartHybrid ∨
      thresholdOf (getDiffStrategy model fsOrTh th) = some q := by
  simp only [getDiffStrategy, hq, Option.getD_some]
  split
  · exact Or.inr rfl
  · split
    · exact Or.inr rfl
    · split
      · split
        · split
          · exact Or.inl rfl
          · exact Or.inr rfl
        · exact Or.inr rfl
      · exact Or.inr rfl

/-- Witness for C7 at a `.ts` file and threshold `7/10` (the selector
returns the AST-Aware strategy carrying exactly that threshold). -/
theorem claim_C7_witness :
    getDiffStrategy "m" (some (Sum.inl ⟨100, "a.ts", none, 0⟩)) (some (mkRat 7 10)) =
      .smartHybrid ∨
    thresholdOf (getDiffStrategy "m" (some (Sum.inl ⟨100, "a.ts", none, 0⟩))
      (some (mkRat 7 10))) = some (mkRat 7 10) :=
  claim_C7 "m" (some (Sum.inl ⟨100, "a.ts", none, 0⟩)) (some (mkRat 7 10))
    (mkRat 7 10) (by decide)

/-- Counterexample for C7 as stated: a small `.json` file selects the
Smart Hybrid strategy, whose constructor takes no arguments, so the
caller's threshold `7/10` is not passed through to the instance. -/
theorem claim_C7_counterexample :
    getDiffStrategy "m" (some (Sum.inl ⟨100, "a.json", none, 0⟩)) (some (mkRat 7 10)) =
      .smartHybrid ∧
    thresholdOf (getDiffStrategy "m" (some (Sum.inl ⟨100, "a.json", none, 0⟩))
      (some (mkRat 7 10))) ≠ some (mkRat 7 10) := by
  constructor
  · decide
  · decide

/-! ## Claim C10 -/

lemma jsMapGet_none_of_lt {V : Type} (l : List (Nat × V)) (n : Nat)
    (h : ∀ p ∈ l, p.1 < n) : jsMapGet l n = none := by
  induction l with
  | nil => rfl
  | cons p rest ih =>
    obtain ⟨k, v⟩ := p
    have hk : k < n := h (k, v) (by simp)
    simp only [jsMapGet, if_neg (by omega : ¬ k = n)]
    exact ih (fun q hq => h q (by simp [hq]))

/-- C10: the warm-cache tier never serves a result — the `WeakMap`
lookup key is a freshly allocated object created inside the call, so
`warmCache.get` returns `undefined` on every call from a well-formed
state, the served tier is never the warm one, and well-formedness is
preserved (every call that misses the hot cache recomputes or fails). -/
theorem claim_C10 (env : SHEnv) (st : SHState) (o d : String) (p : Option String)
    (hinv : SHInv st) :
    (shApplyDiff env st o d p).2.2 ≠ .warm ∧
      SHInv (shApplyDiff env st o d p).2.1 := by
  have hwarm : jsMapGet st.warmCache st.nextObjId = none :=
    jsMapGet_none_of_lt st.warmCache st.nextObjId hinv
  have hproc : ∀ (oc sc rc : String) (ext : Option String),
      (shProcess env st oc d sc rc ext).2.2 ≠ .warm ∧
        SHInv (shProcess env st oc d sc rc ext).2.1 := by
    intro oc sc rc ext
    unfold shProcess
    cases hh : jsMapGet st.hotCache (getCacheKey env (generateHybridHash env oc ext) d) with
    | some e =>
      simp only [hh]
      exact ⟨by decide, hinv⟩
    | none =>
      simp only [hh, hwarm]
      by_cases hc : strContains (replaceRN oc) (replaceRN sc) = true
      · simp only [hc, if_true]
        refine ⟨by decide, fun q hq => ?_⟩
        simp only [List.mem_append, List.mem_singleton] at hq
        cases hq with
        | inl hmem => exact Nat.lt_succ_of_lt (hinv q hmem)
        | inr hnew => rw [hnew]; exact Nat.lt_succ_self _
      · simp only [Bool.not_eq_true] at hc
        simp only [hc, Bool.false_eq_true, if_false]
        exact ⟨by decide, fun q hq => Nat.lt_succ_of_lt (hinv q hq)⟩
  cases hp : shParseDiffContent d with
  | none =>
    simp only [shApplyDiff, hp]
    exact ⟨by decide, hinv⟩
  | some pr =>
    obtain ⟨sc, rc⟩ := pr
    simp only [shApplyDiff, hp]
    exact hproc (shNormalizeInput o) sc rc (shFileExt p)

/-- Witness for C10 at a concrete environment, the fresh state and a
concrete diff (the call recomputes and the warm tier stays unused). -/
theorem claim_C10_witness :
    (shApplyDiff ⟨fun _ => "h1", fun _ => "h2", id, id, id, 0⟩ SHState.fresh "abc"
      "<<<<<<< SEARCH\nb\n=======\nZ\n>>>>>>> REPLACE" none).2.2 ≠ .warm ∧
    SHInv (shApplyDiff ⟨fun _ => "h1", fun _ => "h2", id, id, id, 0⟩ SHState.fresh "abc"
      "<<<<<<< SEARCH\nb\n=======\nZ\n>>>>>>> REPLACE" none).2.1 :=
  claim_C10 ⟨fun _ => "h1", fun _ => "h2", id, id, id, 0⟩ SHState.fresh "abc"
    "<<<<<<< SEARCH\nb\n=======\nZ\n>>>>>>> REPLACE" none
    (fun q hq => absurd hq (List.not_mem_nil q))

/-! ## Search-Replace unfolding lemmas -/

lemma srApplyDiff_extract (self : SRStrategy) (o d sc rc : String) (s e : Option Nat)
    (hext : srExtract d = some (sc, rc)) :
    srApplyDiff self o d s e = srApplyCore self o sc rc s e := by
  simp only [srApplyDiff, hext]

lemma srApplyCore_pre (self : SRStrategy) (o sc rc : String) (s e : Option Nat)
    (hpre : srPreprocess sc rc = (sc, rc)) :
    srApplyCore self o sc rc s e = srApplyCore2 self o sc rc s e := by
  simp only [srApplyCore, hpre]

/-- On the no-line-hint path with a non-empty search section, `applyDiff`
is the final gate applied to the full-document scan. -/
lemma srApplyCore2_noStart (self : SRStrategy) (o sc rc : String) (e : Option Nat)
    (hsc : sc ≠ "") :
    srApplyCore2 self o sc rc none e =
      srFinish self (splitRN o) (splitRN sc) (if rc = "" then [] else splitRN rc)
        (if strContains o "\r\n" then "\r\n" else "\n") (srScanResult o sc) := by
  unfold srApplyCore2 srScanResult
  simp [if_neg hsc, splitRN_isEmpty_false, jsTruthyNat]

lemma srFinish_none (self : SRStrategy) (ol sl rl : List String) (le : String)
    (b : ℚ) (bc : String) :
    srFinish self ol sl rl le ⟨none, b, bc⟩ = .noMatch b self.fuzzyThreshold none bc :=
  rfl

lemma srFinish_some_reject (self : SRStrategy) (ol sl rl : List String) (le : String)
    (mi : Nat) (b : ℚ) (bc : String) (hlt : b < self.fuzzyThreshold) :
    srFinish self ol sl rl le ⟨some mi, b, bc⟩ =
      .noMatch b self.fuzzyThreshold (some mi) bc := by
  unfold srFinish
  dsimp only
  rw [if_pos hlt]

lemma srFinish_some_accept (self : SRStrategy) (ol sl rl : List String) (le : String)
    (mi : Nat) (b : ℚ) (bc : String) (hge : ¬ b < self.fuzzyThreshold) :
    ∃ c n, srFinish self ol sl rl le ⟨some mi, b, bc⟩ = .success c n b := by
  unfold srFinish
  dsimp only
  rw [if_neg hge]
  exact ⟨_, _, rfl⟩

lemma srFinish_success_ge (self : SRStrategy) (ol sl rl : List String) (le : String)
    (st : ScanState) (c : String) (n : Nat) (b : ℚ)
    (h : srFinish self ol sl rl le st = .success c n b) : self.fuzzyThreshold ≤ b := by
  obtain ⟨mi, b0, bc0⟩ := st
  cases mi with
  | none => exact absurd h (by simp [srFinish])
  | some i =>
    unfold srFinish at h
    dsimp only at h
    by_cases hlt : b0 < self.fuzzyThreshold
    · rw [if_pos hlt] at h
      exact absurd h (by simp)
    · rw [if_neg hlt] at h
      injection h with h1 h2 h3
      rw [← h3]
      exact not_lt.mp hlt

lemma srApplyCore2_success_ge (self : SRStrategy) (o sc rc : String) (s e : Option Nat)
    (c : String) (n : Nat) (b : ℚ)
    (h : srApplyCore2 self o sc rc s e = .success c n b) : self.fuzzyThreshold ≤ b := by
  unfold srApplyCore2 at h
  dsimp only at h
  repeat' split at h
  all_goals
    first
      | exact srFinish_success_ge self _ _ _ _ _ c n b h
      | simp at h

/-- Every success of `applyDiff` carries a score at or above the
configured threshold, on every code path. -/
lemma srApplyDiff_success_ge (self : SRStrategy) (o d : String) (s e : Option Nat)
    (c : String) (n : Nat) (b : ℚ)
    (h : srApplyDiff self o d s e = .success c n b) : self.fuzzyThreshold ≤ b := by
  unfold srApplyDiff at h
  split at h
  · exact absurd h (by simp)
  · rename_i sc rc heq
    unfold srApplyCore at h
    exact srApplyCore2_success_ge self o _ _ s e c n b h

/-! ## Claim C4 -/

/-- C4: the Search-Replace acceptance gate — the default threshold is
`1.0` when the constructor argument is omitted, and on the scan path the
best candidate is accepted exactly when its score reaches the
configured threshold: at or above the threshold the result is a success
carrying that score, strictly below it the result is a `noMatch`
diagnostic reporting the achieved score and the required threshold
(also when no candidate was recorded at all). -/
theorem claim_C4 :
    (SRStrategy.ofArgs none none).fuzzyThreshold = 1 ∧
    (∀ (self : SRStrategy) (o d : String) (s e : Option Nat) (c : String) (n : Nat)
      (b : ℚ), srApplyDiff self o d s e = .success c n b → self.fuzzyThreshold ≤ b) ∧
    ∀ (self : SRStrategy) (original diff sc rc : String) (e : Option Nat),
      srExtract diff = some (sc, rc) →
      srPreprocess sc rc = (sc, rc) →
      sc ≠ "" →
      ((∀ i, (srScanResult original sc).matchIndex = some i →
        (self.fuzzyThreshold ≤ (srScanResult original sc).best →
          ∃ c n, srApplyDiff self original diff none e =
            .success c n (srScanResult original sc).best) ∧
        ((srScanResult original sc).best < self.fuzzyThreshold →
          srApplyDiff self original diff none e =
            .noMatch (srScanResult original sc).best self.fuzzyThreshold (some i)
              (srScanResult original sc).bestContent)) ∧
      ((srScanResult original sc).matchIndex = none →
        srApplyDiff self original diff none e =
          .noMatch (srScanResult original sc).best self.fuzzyThreshold none
            (srScanResult original sc).bestContent)) := by
  refine ⟨rfl, fun self o d s e c n b h => srApplyDiff_success_ge self o d s e c n b h, ?_⟩
  intro self original diff sc rc e hext hpre hsc
  rw [srApplyDiff_extract self original diff sc rc none e hext,
    srApplyCore_pre self original sc rc none e hpre,
    srApplyCore2_noStart self original sc rc e hsc]
  cases hst : srScanResult original sc with
  | mk mi b bc =>
    constructor
    · intro i hmi
      dsimp only at hmi
      subst hmi
      constructor
      · intro hθ
        dsimp only at hθ ⊢
        exact srFinish_some_accept self _ _ _ _ i b bc (not_lt.mpr hθ)
      · intro hlt
        dsimp only at hlt ⊢
        exact srFinish_some_reject self _ _ _ _ i b bc hlt
    · intro hmi
      dsimp only at hmi
      subst hmi
      dsimp only
      exact srFinish_none self _ _ _ _ b bc

set_option maxRecDepth 200000 in
/-- Witness for C4: with threshold `1/2`, a window scoring exactly `1/2`
(distance 10 over maximum length 20) is accepted with that score; with
threshold `3/4` the same window is rejected with a diagnostic carrying
the achieved `1/2` and the required `3/4`. -/
theorem claim_C4_witness :
    (SRStrategy.ofArgs none none).fuzzyThreshold = 1 ∧
    (∃ c n, srApplyDiff ⟨mkRat 1 2, 20⟩ "aaaaaaaaaabbbbbbbbbb"
      "<<<<<<< SEARCH\naaaaaaaaaaaaaaaaaaaa\n=======\nX\n>>>>>>> REPLACE" none none =
      .success c n (mkRat 1 2)) ∧
    srApplyDiff ⟨mkRat 3 4, 20⟩ "aaaaaaaaaabbbbbbbbbb"
      "<<<<<<< SEARCH\naaaaaaaaaaaaaaaaaaaa\n=======\nX\n>>>>>>> REPLACE" none none =
      .noMatch (mkRat 1 2) (mkRat 3 4) (some 0) "aaaaaaaaaabbbbbbbbbb" := by
  have hb : (srScanResult "aaaaaaaaaabbbbbbbbbb" "aaaaaaaaaaaaaaaaaaaa").best =
      mkRat 1 2 := by decide
  have hc : (srScanResult "aaaaaaaaaabbbbbbbbbb" "aaaaaaaaaaaaaaaaaaaa").bestContent =
      "aaaaaaaaaabbbbbbbbbb" := by decide
  refine ⟨claim_C4.1, ?_, ?_⟩
  · have h := ((claim_C4.2.2 ⟨mkRat 1 2, 20⟩ "aaaaaaaaaabbbbbbbbbb"
      "<<<<<<< SEARCH\naaaaaaaaaaaaaaaaaaaa\n=======\nX\n>>>>>>> REPLACE"
      "aaaaaaaaaaaaaaaaaaaa" "X" none (by decide) (by decide) (by decide)).1 0
      (by decide)).1 (by rw [hb])
    rwa [hb] at h
  · have h := ((claim_C4.2.2 ⟨mkRat 3 4, 20⟩ "aaaaaaaaaabbbbbbbbbb"
      "<<<<<<< SEARCH\naaaaaaaaaaaaaaaaaaaa\n=======\nX\n>>>>>>> REPLACE"
      "aaaaaaaaaaaaaaaaaaaa" "X" none (by decide) (by decide) (by decide)).1 0
      (by decide)).2 (by rw [hb]; decide)
    rwa [hb, hc] at h

/-! ## Claim C5 -/

/-- The scan loop never records a best score at or above the threshold
when no window hash-matches the search chunk and every window scores
strictly below the threshold. -/
lemma srScanGo_below (lines : List String) (chunkS : String) (w : Nat) (θ : ℚ) :
    ∀ (fuel i : Nat) (st : ScanState),
      (∀ j, i ≤ j → j < i + fuel →
        murmurHash3 (joinNL ((lines.drop j).take w)) ≠ murmurHash3 chunkS) →
      (∀ j, i ≤ j → j < i + fuel →
        getSimilarity (joinNL ((lines.drop j).take w)) chunkS < θ) →
      (st.matchIndex = none ∨ st.best < θ) →
      ((srScanGo lines chunkS w i fuel st).matchIndex = none ∨
        (srScanGo lines chunkS w i fuel st).best < θ) := by
  intro fuel
  induction fuel with
  | zero =>
    intro i st _ _ hst
    simpa only [srScanGo] using hst
  | succ f ih =>
    intro i st hhash hsim hst
    rw [srScanGo]
    rw [if_neg (hhash i (le_refl i) (by omega))]
    by_cases h3 : i % 3 = 0
    · rw [if_pos h3]
      dsimp only
      have hsimlt : getSimilarity (joinNL (List.take w (List.drop i lines))) chunkS < θ :=
        hsim i (le_refl i) (by omega)
      by_cases hgt :
          getSimilarity (joinNL (List.take w (List.drop i lines))) chunkS > st.best
      · rw [if_pos hgt]
        dsimp only
        by_cases hexit :
            getSimilarity (joinNL (List.take w (List.drop i lines))) chunkS ≥ mkRat 95 100
        · rw [if_pos hexit]
          exact Or.inr hsimlt
        · rw [if_neg hexit]
          exact ih (i + 1) _ (fun j hj1 hj2 => hhash j (by omega) (by omega))
            (fun j hj1 hj2 => hsim j (by omega) (by omega)) (Or.inr hsimlt)
      · rw [if_neg hgt]
        by_cases hexit : st.best ≥ mkRat 95 100
        · rw [if_pos hexit]
          exact hst
        · rw [if_neg hexit]
          exact ih (i + 1) st (fun j hj1 hj2 => hhash j (by omega) (by omega))
            (fun j hj1 hj2 => hsim j (by omega) (by omega)) hst
    · rw [if_neg h3]
      exact ih (i + 1) st (fun j hj1 hj2 => hhash j (by omega) (by omega))
        (fun j hj1 hj2 => hsim j (by omega) (by omega)) hst

/-- The full-document scan state equals the scan loop run for
`srMaxIndex` iterations from the initial state. -/
lemma srScanResult_eq (original sc : String) :
    srScanResult original sc =
      srScanGo (splitRN original) (joinNL (splitRN sc)) (splitRN sc).length 0
        (srMaxIndex original sc) ⟨none, 0, ""⟩ := by
  unfold srScanResult srScanFrom srMaxIndex
  norm_num

/-- C5 (amended): a structured failure, never a crash, when the search
text cannot be matched.  For Search-Replace: when no candidate window
hash-matches the search chunk and every window scores strictly below
the threshold, `applyDiff` returns a `noMatch` diagnostic carrying the
required threshold.  For Smart Hybrid: when the line-ending-normalised
original does not contain the normalised search text, `applyDiff`
returns exactly the failure "Search content not found in original
content". -/
theorem claim_C5 :
    (∀ (self : SRStrategy) (original diff sc rc : String) (e : Option Nat),
      srExtract diff = some (sc, rc) →
      srPreprocess sc rc = (sc, rc) →
      sc ≠ "" →
      (∀ j, j < srMaxIndex original sc →
        murmurHash3 (srWindow original sc j) ≠ murmurHash3 (srSearchChunk sc)) →
      (∀ j, j < srMaxIndex original sc →
        getSimilarity (srWindow original sc j) (srSearchChunk sc) < self.fuzzyThreshold) →
      ∃ bs mi bc, srApplyDiff self original diff none e =
        .noMatch bs self.fuzzyThreshold mi bc) ∧
    (∀ (env : SHEnv) (st : SHState) (o d : String) (p : Option String) (sc rc : String),
      SHInv st → st.hotCache = [] →
      isCborEncoded o = false →
      shParseDiffContent d = some (sc, rc) →
      strContains (replaceRN o) (replaceRN sc) = false →
      (shApplyDiff env st o d p).1 =
        .failure "Search content not found in original content") := by
  constructor
  · intro self original diff sc rc e hext hpre hsc hhash hsim
    rw [srApplyDiff_extract self original diff sc rc none e hext,
      srApplyCore_pre self original sc rc none e hpre,
      srApplyCore2_noStart self original sc rc e hsc]
    have hP := srScanGo_below (splitRN original) (joinNL (splitRN sc))
      (splitRN sc).length self.fuzzyThreshold (srMaxIndex original sc) 0 ⟨none, 0, ""⟩
      (fun j _ hj2 => by
        have h := hhash j (by omega)
        simpa [srWindow, srSearchChunk] using h)
      (fun j _ hj2 => by
        have h := hsim j (by omega)
        simpa [srWindow, srSearchChunk] using h)
      (Or.inl rfl)
    rw [← srScanResult_eq original sc] at hP
    cases hst : srScanResult original sc with
    | mk mi b bc =>
      rw [hst] at hP
      dsimp only at hP
      cases mi with
      | none => exact ⟨b, none, bc, srFinish_none self _ _ _ _ b bc⟩
      | some i =>
        have hlt : b < self.fuzzyThreshold := by
          rcases hP with h | h
          · exact absurd h (by simp)
          · exact h
        exact ⟨b, some i, bc, srFinish_some_reject self _ _ _ _ i b bc hlt⟩
  · intro env st o d p sc rc hinv hhot hcbor hparse hcont
    have hnorm : shNormalizeInput o = o := by
      simp [shNormalizeInput, hcbor]
    have hwarm := jsMapGet_none_of_lt st.warmCache st.nextObjId hinv
    simp only [shApplyDiff, hparse, hnorm]
    unfold shProcess
    rw [hhot]
    simp only [jsMapGet, hwarm, hcont, Bool.false_eq_true, if_false]

set_option maxRecDepth 200000 in
/-- Witness for C5 at the spec's concrete scenario: search text
"nonexistent content" against "function test() {}" (braces written as
escapes) — Search-Replace reports a `noMatch` diagnostic and Smart
Hybrid reports exactly "Search content not found in original content". -/
theorem claim_C5_witness :
    (∃ bs mi bc, srApplyDiff (SRStrategy.ofArgs none none) "function test() \x7b\x7d"
      "<<<<<<< SEARCH\nnonexistent content\n=======\nX\n>>>>>>> REPLACE" none none =
      .noMatch bs (SRStrategy.ofArgs none none).fuzzyThreshold mi bc) ∧
    (shApplyDiff ⟨fun _ => "h1", fun _ => "h2", id, id, id, 0⟩ SHState.fresh
      "function test() \x7b\x7d"
      "<<<<<<< SEARCH\nnonexistent content\n=======\nX\n>>>>>>> REPLACE" none).1 =
      .failure "Search content not found in original content" := by
  constructor
  · exact claim_C5.1 (SRStrategy.ofArgs none none) "function test() \x7b\x7d"
      "<<<<<<< SEARCH\nnonexistent content\n=======\nX\n>>>>>>> REPLACE"
      "nonexistent content" "X" none (by decide) (by decide) (by decide)
      (by decide) (by decide)
  · exact claim_C5.2 ⟨fun _ => "h1", fun _ => "h2", id, id, id, 0⟩ SHState.fresh
      "function test() \x7b\x7d"
      "<<<<<<< SEARCH\nnonexistent content\n=======\nX\n>>>>>>> REPLACE" none
      "nonexistent content" "X" (fun q hq => absurd hq (List.not_mem_nil q)) rfl
      (by decide) (by decide) (by decide)

set_option maxRecDepth 200000 in
/-- Counterexample for C5 as stated: the original `"a  b"` does not
contain the search text `"a b"`, yet Search-Replace succeeds — the
whitespace-collapsing similarity scores the single window `1.0`, which
meets the default threshold. -/
theorem claim_C5_counterexample :
    strContains "a  b" "a b" = false ∧
    srApplyDiff (SRStrategy.ofArgs none none) "a  b"
      "<<<<<<< SEARCH\na b\n=======\nc\n>>>>>>> REPLACE" none none =
      .success "c" 1 1 := by
  constructor
  · decide
  · decide

/-! ## Claim C3 -/

set_option maxRecDepth 200000 in
/-- C3 (amended): an exact match still succeeds with score `1.0` in the
cases the early exit cannot pre-empt.  For Search-Replace: when the
search block is byte-identical to the window at the first candidate
position (and the threshold is at most `1`), the quick hash acceptance
fires and `applyDiff` succeeds with score `1`.  For Smart Hybrid: when
the normalised original contains the normalised search text, `applyDiff`
succeeds with the literal replacement (accuracy `1.0`).  In general an
exact match elsewhere in the document can be pre-empted by the `0.95`
early exit — see the counterexample. -/
theorem claim_C3 :
    (∀ (self : SRStrategy) (original diff sc rc : String) (e : Option Nat),
      srExtract diff = some (sc, rc) →
      srPreprocess sc rc = (sc, rc) →
      sc ≠ "" →
      (splitRN original).take (splitRN sc).length = splitRN sc →
      self.fuzzyThreshold ≤ 1 →
      ∃ c n, srApplyDiff self original diff none e = .success c n 1) ∧
    (∀ (env : SHEnv) (st : SHState) (o d : String) (p : Option String) (sc rc : String),
      SHInv st → st.hotCache = [] →
      isCborEncoded o = false →
      shParseDiffContent d = some (sc, rc) →
      strContains (replaceRN o) (replaceRN sc) = true →
      (shApplyDiff env st o d p).1 =
        createSuccessResult (strReplaceFirst (replaceRN o) (replaceRN sc)
          (replaceRN rc))) := by
  constructor
  · intro self original diff sc rc e hext hpre hsc htake hθ
    rw [srApplyDiff_extract self original diff sc rc none e hext,
      srApplyCore_pre self original sc rc none e hpre,
      srApplyCore2_noStart self original sc rc e hsc]
    have hw : (splitRN sc).length ≤ (splitRN original).length := by
      have h1 := congrArg List.length htake
      rw [List.length_take] at h1
      omega
    have hscan : srScanResult original sc =
        ⟨some 0, 1, joinNL (splitRN sc)⟩ := by
      rw [srScanResult_eq]
      have hfuel : srMaxIndex original sc =
          ((splitRN original).length - (splitRN sc).length) + 1 := by
        unfold srMaxIndex
        omega
      rw [hfuel, srScanGo]
      have hchunk : joinNL (List.take (splitRN sc).length
          (List.drop 0 (splitRN original))) = joinNL (splitRN sc) := by
        rw [List.drop_zero, htake]
      rw [hchunk, if_pos rfl]
    rw [hscan]
    exact srFinish_some_accept self _ _ _ _ 0 1 (joinNL (splitRN sc))
      (not_lt.mpr hθ)
  · intro env st o d p sc rc hinv hhot hcbor hparse hcont
    have hnorm : shNormalizeInput o = o := by
      simp [shNormalizeInput, hcbor]
    have hwarm := jsMapGet_none_of_lt st.warmCache st.nextObjId hinv
    simp only [shApplyDiff, hparse, hnorm]
    unfold shProcess
    rw [hhot]
    simp only [jsMapGet, hwarm, hcont, if_true]

set_option maxRecDepth 200000 in
/-- Witness for C3 (amended) at concrete inputs: a search block equal to
the first line succeeds with score 1 in Search-Replace, and the spec's
`return true;` replacement succeeds in Smart Hybrid. -/
theorem claim_C3_witness :
    (∃ c n, srApplyDiff (SRStrategy.ofArgs none none) "ab\ncd"
      "<<<<<<< SEARCH\nab\n=======\nZZ\n>>>>>>> REPLACE" none none =
      .success c n 1) ∧
    (shApplyDiff ⟨fun _ => "h1", fun _ => "h2", id, id, id, 0⟩ SHState.fresh
      "function test() \x7b\n    return true;\n\x7d\n"
      "<<<<<<< SEARCH\nreturn true;\n=======\nreturn false;\n>>>>>>> REPLACE" none).1 =
      createSuccessResult (strReplaceFirst
        (replaceRN "function test() \x7b\n    return true;\n\x7d\n")
        (replaceRN "return true;") (replaceRN "return false;")) := by
  constructor
  · exact claim_C3.1 (SRStrategy.ofArgs none none) "ab\ncd"
      "<<<<<<< SEARCH\nab\n=======\nZZ\n>>>>>>> REPLACE" "ab" "ZZ" none
      (by decide) (by decide) (by decide) (by decide) (by decide)
  · exact claim_C3.2 ⟨fun _ => "h1", fun _ => "h2", id, id, id, 0⟩ SHState.fresh
      "function test() \x7b\n    return true;\n\x7d\n"
      "<<<<<<< SEARCH\nreturn true;\n=======\nreturn false;\n>>>>>>> REPLACE" none
      "return true;" "return false;" (fun q hq => absurd hq (List.not_mem_nil q)) rfl
      (by decide) (by decide) (by decide)

set_option maxRecDepth 200000 in
/-- Counterexample for C3 as stated: the search text is byte-identical
to the second line of the original (a line-aligned substring), but the
first window scores `19/20 ≥ 0.95`, the scan exits early, and the
default-threshold Search-Replace rejects with `noMatch` instead of
succeeding with score `1.0`. -/
theorem claim_C3_counterexample :
    splitRN "aaaaaaaaaaaaaaaaaaaa\naaaaaaaaaaaaaaaaaaab" =
      ["aaaaaaaaaaaaaaaaaaaa", "aaaaaaaaaaaaaaaaaaab"] ∧
    srApplyDiff (SRStrategy.ofArgs none none)
      "aaaaaaaaaaaaaaaaaaaa\naaaaaaaaaaaaaaaaaaab"
      "<<<<<<< SEARCH\naaaaaaaaaaaaaaaaaaab\n=======\nZZZ\n>>>>>>> REPLACE" none none =
      .noMatch (mkRat 19 20) 1 (some 0) "aaaaaaaaaaaaaaaaaaaa" := by
  constructor
  · decide
  · decide

/-! ## Claim C6 -/

/-- C6 (amended): with an empty extracted search section, `applyDiff`
fails when no (truthy) start line is given, and fails when both start
and end lines are given but differ.  When a start line is given with no
end line, neither guard fires (the code proceeds as an insertion) — see
the counterexample. -/
theorem claim_C6 (self : SRStrategy) (original diff sc rc : String) (s e : Option Nat)
    (hext : srExtract diff = some (sc, rc))
    (hpre : srPreprocess sc rc = (sc, rc)) (hsc : sc = "") :
    (jsTruthyNat s = false →
      srApplyDiff self original diff s e = .emptySearchNoStart) ∧
    (jsTruthyNat s = true → jsTruthyNat e = true → s.getD 0 ≠ e.getD 0 →
      srApplyDiff self original diff s e = .emptySearchRange (s.getD 0) (e.getD 0)) := by
  rw [srApplyDiff_extract self original diff sc rc s e hext,
    srApplyCore_pre self original sc rc s e hpre]
  subst hsc
  constructor
  · intro hs
    simp [srApplyCore2, hs]
  · intro hs he hne
    simp [srApplyCore2, hs, he, hne]

/-- Witness for C6 at concrete inputs: no start line fails, and start
line 1 with end line 2 fails. -/
theorem claim_C6_witness :
    srApplyDiff (SRStrategy.ofArgs none none) "a\nb"
      "<<<<<<< SEARCH\n\n=======\nX\n>>>>>>> REPLACE" none none =
      .emptySearchNoStart ∧
    srApplyDiff (SRStrategy.ofArgs none none) "a\nb"
      "<<<<<<< SEARCH\n\n=======\nX\n>>>>>>> REPLACE" (some 1) (some 2) =
      .emptySearchRange 1 2 := by
  constructor
  · exact (claim_C6 (SRStrategy.ofArgs none none) "a\nb"
      "<<<<<<< SEARCH\n\n=======\nX\n>>>>>>> REPLACE" "" "X" none none
      (by decide) (by decide) rfl).1 rfl
  · exact (claim_C6 (SRStrategy.ofArgs none none) "a\nb"
      "<<<<<<< SEARCH\n\n=======\nX\n>>>>>>> REPLACE" "" "X" (some 1) (some 2)
      (by decide) (by decide) rfl).2 rfl rfl (by decide)

/-- Counterexample for C6 as stated: an empty search section with a
start line but no end line is not rejected — the empty window matches at
index 0 by hash equality and the replacement is inserted at the top,
returning success. -/
theorem claim_C6_counterexample :
    srExtract "<<<<<<< SEARCH\n\n=======\nX\n>>>>>>> REPLACE" = some ("", "X") ∧
    srApplyDiff (SRStrategy.ofArgs none none) "a\nb"
      "<<<<<<< SEARCH\n\n=======\nX\n>>>>>>> REPLACE" (some 5) none =
      .success "X\na\nb" 1 1 := by
  constructor
  · decide
  · decide

end RooDiff
